import Mathlib

/-!
Verification of the DTF gang-sheet layout engine
(`src/dtf-gangsheet/index.js` and its variants under `src/unnamed/`).

All linear measurements are in points (1 inch = 72 points) and are modelled
as rationals; copy counts are naturals.  `Math.floor` / `Math.ceil` on
nonnegative reals are modelled with `Int.floor` / `Int.ceil` on `ℚ`.
-/

namespace Gangsheet

/-! Constants, from `index.js` lines 11-16. -/

def POINTS_PER_INCH : ℚ := 72

def SHEET_WIDTH_INCH : ℚ := 22

def MAX_SHEET_HEIGHT_INCH : ℚ := 200

def SAFE_MARGIN_INCH : ℚ := 1/8

def SPACING_INCH : ℚ := 1/2

def safeMarginPts : ℚ := SAFE_MARGIN_INCH * POINTS_PER_INCH

def spacingPts : ℚ := SPACING_INCH * POINTS_PER_INCH

def sheetWidthPts : ℚ := SHEET_WIDTH_INCH * POINTS_PER_INCH

def maxHeightPts : ℚ := MAX_SHEET_HEIGHT_INCH * POINTS_PER_INCH

/-- Oriented width of the asset: `index.js` lines 52-56 swap the base
dimensions when `rotate` is set (`layoutWidth = pdfHeightPts`). -/
def orientedW (bw bh : ℚ) (rot : Bool) : ℚ := if rot then bh else bw

/-- Oriented height of the asset (`layoutHeight = pdfWidthPts` when rotated). -/
def orientedH (bw bh : ℚ) (rot : Bool) : ℚ := if rot then bw else bh

/-- `logoTotalWidth = logoWidthPts + spacingPts` (`index.js` line 99). -/
def logoTotalWidth (w : ℚ) : ℚ := w + spacingPts

/-- `logoTotalHeight = logoHeightPts + spacingPts` (`index.js` line 100). -/
def logoTotalHeight (h : ℚ) : ℚ := h + spacingPts

/-- `logosPerRow` (`index.js` line 102): columns per row. -/
def logosPerRow (w : ℚ) : ℤ :=
  ⌊(sheetWidthPts - safeMarginPts * 2 + spacingPts) / logoTotalWidth w⌋

/-- `rowsPerSheet` (`index.js` line 106): rows per full-height sheet. -/
def rowsPerSheet (h : ℚ) : ℤ :=
  ⌊(maxHeightPts - safeMarginPts * 2 + spacingPts) / logoTotalHeight h⌋

/-- `logosPerSheet = logosPerRow * rowsPerSheet` (`index.js` line 107). -/
def logosPerSheet (w h : ℚ) : ℤ := logosPerRow w * rowsPerSheet h

/-- `totalSheetsNeeded = Math.ceil(quantity / logosPerSheet)`
(`index.js` line 110), meaningful when `logosPerSheet ≠ 0`. -/
def totalSheetsNeeded (w h : ℚ) (q : ℕ) : ℤ :=
  ⌈(q : ℚ) / (logosPerSheet w h : ℚ)⌉

/-- `usedRows = Math.ceil(c / logosPerRow)` (`index.js` lines 153 and 196). -/
def usedRows (P : ℤ) (c : ℕ) : ℤ := ⌈(c : ℚ) / (P : ℚ)⌉

/-- `usedHeightPts = usedRows * logoTotalHeight + safeMarginPts * 2 - spacingPts`
(`index.js` lines 154 and 197). -/
def usedHeightPts (h : ℚ) (r : ℤ) : ℚ :=
  r * logoTotalHeight h + safeMarginPts * 2 - spacingPts

/-- `roundedHeightPts = Math.ceil(usedHeightPts / POINTS_PER_INCH) * POINTS_PER_INCH`
(`index.js` lines 155 and 198). -/
def roundedHeightPts (h : ℚ) (r : ℤ) : ℚ :=
  ⌈usedHeightPts h r / POINTS_PER_INCH⌉ * POINTS_PER_INCH

/-! The rendering primitive.  Per the spec, `drawPage` with `rotate: degrees(90)`
rotates the asset 90° counter-clockwise about its placement anchor, so a page of
unrotated size `bw × bh` drawn at anchor `(a, b)` covers
`[a - bh, a] × [b, b + bw]`; drawn unrotated it covers `[a, a + bw] × [b, b + bh]`. -/

/-- Axis-aligned bounding box of a drawn tile. -/
structure Box where
  x0 : ℚ
  x1 : ℚ
  y0 : ℚ
  y1 : ℚ
deriving DecidableEq

/-- Anchor actually passed to `drawPage` by `drawLogo` (`index.js` lines 114-124,
PDF branch): when `rotate` is set the x-anchor is `x + logoHeightPts`, where
`logoHeightPts` is the oriented height (the asset's pre-rotation width). -/
def drawLogoPdfAnchor (rot : Bool) (bw bh x y : ℚ) : ℚ × ℚ :=
  if rot then (x + orientedH bw bh rot, y) else (x, y)

/-- Bounding box of the tile drawn by `drawLogo` (PDF branch) for a cell
anchor `(x, y)`, under the counter-clockwise-about-anchor rendering rule. -/
def drawLogoBoxPdf (rot : Bool) (bw bh x y : ℚ) : Box :=
  let a := drawLogoPdfAnchor rot bw bh x y
  if rot then ⟨a.1 - bh, a.1, a.2, a.2 + bw⟩ else ⟨a.1, a.1 + bw, a.2, a.2 + bh⟩

/-! Placement loops of `index.js` lines 157-169 (single sheet) and 200-213
(per sheet in multi-sheet mode): row-major, `xCursor` starting at
`safeMarginPts` and advancing by `logoTotalWidth`, `yCursor` starting at
`roundedHeightPts - safeMarginPts - logoHeightPts` and decreasing by
`logoTotalHeight` after each row. -/

/-- One row of the placement loop: `n` anchors starting at `x`, advancing by
`logoTotalWidth w`. -/
def rowOf (w : ℚ) : ℕ → ℚ → ℚ → List (ℚ × ℚ)
  | 0, _, _ => []
  | n + 1, x, y => (x, y) :: rowOf w n (x + logoTotalWidth w) y

/-- The nested placement loop: places `c` copies, at most `P` per row
(`logosPerRow`), starting rows at `xCursor = safeMarginPts` and moving
`yCursor` down by `logoTotalHeight h` between rows.  `fuel` bounds the number
of rows; `fuel = c` suffices whenever `P ≥ 1`. -/
def placeLoop (w h : ℚ) (P : ℕ) : ℕ → ℕ → ℚ → List (ℚ × ℚ)
  | 0, _, _ => []
  | _ + 1, 0, _ => []
  | fuel + 1, c + 1, y =>
      rowOf w (min (c + 1) P) safeMarginPts y ++
        placeLoop w h P fuel (c + 1 - min (c + 1) P) (y - logoTotalHeight h)

/-- One produced sheet: how many copies it holds, its final (rounded) height
in points, and the cell anchors handed to `drawLogo`. -/
structure Sheet where
  count : ℕ
  heightPts : ℚ
  placements : List (ℚ × ℚ)
deriving DecidableEq

/-- Builds the sheet holding `c` copies: height from `usedRows`/`roundedHeightPts`
(`index.js` lines 195-201), placements from the row-major loop. -/
def mkSheet (w h : ℚ) (P : ℤ) (c : ℕ) : Sheet :=
  let hp := roundedHeightPts h (usedRows P c)
  ⟨c, hp, placeLoop w h P.toNat c c (hp - safeMarginPts - h)⟩

/-- The multi-sheet `for` loop of `index.js` lines 189-222 reduced to copy
counts: runs `n` times, each sheet taking `min remaining L` copies
(`logosOnThisSheet = Math.min(remaining, logosPerSheet)`, line 195). -/
def multiLoop : ℕ → ℕ → ℕ → List ℕ
  | 0, _, _ => []
  | n + 1, rem, L => min rem L :: multiLoop n (rem - min rem L) L

/-- Per-sheet copy counts of the `index.js` pagination: `totalSheetsNeeded`
iterations of the multi-sheet loop.  (When `totalSheetsNeeded = 1` the
single-sheet branch, lines 149-178, places all `q` copies on one sheet,
which coincides with one iteration of this loop since then `q ≤ logosPerSheet`.) -/
def multiCounts (w h : ℚ) (q : ℕ) : List ℕ :=
  multiLoop (totalSheetsNeeded w h q).toNat q (logosPerSheet w h).toNat

/-- The layout pipeline of `index.js` (post upload/quantity validation):
throws `"Logo too wide for sheet"` when `logosPerRow < 1` (line 103);
when `logosPerSheet = 0` and `quantity > 0`, `totalSheetsNeeded`
is `Math.ceil(q / 0) = Infinity` in JS and the sheet loop never terminates,
modelled as `.ok none`; otherwise produces the list of sheets. -/
def generateSheets (bw bh : ℚ) (rot : Bool) (q : ℕ) :
    Except String (Option (List Sheet)) :=
  let w := orientedW bw bh rot
  let h := orientedH bw bh rot
  if logosPerRow w < 1 then .error "Logo too wide for sheet"
  else if logosPerSheet w h = 0 ∧ 0 < q then .ok none
  else .ok (some ((multiCounts w h q).map (mkSheet w h (logosPerRow w))))

/-- Total number of copies placed across all produced sheets, `none` when the
layout failed or diverged. -/
def totalPlaced : Except String (Option (List Sheet)) → Option ℕ
  | .ok (some ss) => some ((ss.map Sheet.count).sum)
  | _ => none

/-! The iterative pagination variant, `index.js` lines 263-334 (second handler):
a `while (remaining > 0)` loop that recomputes each sheet's row capacity from
the capped-and-rounded height required by the remaining copies. -/

/-- `rowsNeeded = Math.ceil(remaining / perRow)` (`index.js` line 268). -/
def iterRowsNeeded (w : ℚ) (rem : ℕ) : ℤ := ⌈(rem : ℚ) / (logosPerRow w : ℚ)⌉

/-- `requiredHeightPts = marginPts*2 + rowsNeeded*logoHeightPts + (rowsNeeded-1)*spacingPts`
(`index.js` lines 271-272). -/
def iterRequiredHeight (w h : ℚ) (rem : ℕ) : ℚ :=
  safeMarginPts * 2 + iterRowsNeeded w rem * h + (iterRowsNeeded w rem - 1) * spacingPts

/-- `sheetHeightPts = Math.min(requiredHeightPts, maxSheetHeightPts)`
(`index.js` line 275). -/
def iterSheetHeight (w h : ℚ) (rem : ℕ) : ℚ :=
  min (iterRequiredHeight w h rem) maxHeightPts

/-- Rounded-up sheet height: `Math.ceil(sheetHeightPts / 72) * 72`
(`index.js` lines 278-279). -/
def iterRoundedHeight (w h : ℚ) (rem : ℕ) : ℚ :=
  ⌈iterSheetHeight w h rem / POINTS_PER_INCH⌉ * POINTS_PER_INCH

/-- Row capacity of this sheet, from the rounded height (`index.js` lines 281-283). -/
def iterRowsPerSheet (w h : ℚ) (rem : ℕ) : ℤ :=
  ⌊(iterRoundedHeight w h rem - safeMarginPts * 2 + spacingPts) / logoTotalHeight h⌋

/-- `maxPerSheet = rowsPerSheet * perRow` (`index.js` line 284). -/
def iterMaxPerSheet (w h : ℚ) (rem : ℕ) : ℤ := iterRowsPerSheet w h rem * logosPerRow w

/-- Copies consumed by one iteration: the nested row/col loop (`index.js`
lines 296-322) draws until the sheet is full or the queue empties. -/
def iterConsumed (w h : ℚ) (rem : ℕ) : ℕ := min rem (iterMaxPerSheet w h rem).toNat

/-- The `while (remaining > 0)` loop reduced to per-sheet copy counts, with a
fuel bound on the number of iterations. -/
def iterLoop (w h : ℚ) : ℕ → ℕ → List ℕ
  | 0, _ => []
  | _ + 1, 0 => []
  | fuel + 1, rem + 1 =>
      iterConsumed w h (rem + 1) ::
        iterLoop w h fuel (rem + 1 - iterConsumed w h (rem + 1))

/-- Per-sheet copy counts of the iterative pagination: fuel `q` suffices
because every iteration consumes at least one copy (proved below). -/
def iterPaginate (w h : ℚ) (q : ℕ) : List ℕ := iterLoop w h q q

/-! The tier cost resolver, `src/unnamed/part_002` lines 213-240. -/

/-- One pricing tier: a maximum length in inches and its price. -/
structure CostTier where
  length : ℚ
  cost : ℚ
deriving DecidableEq

/-- `COST_TABLE` (`part_002` lines 219-232). -/
def COST_TABLE : List CostTier :=
  [⟨12, 5.28⟩, ⟨24, 10.56⟩, ⟨36, 15.84⟩, ⟨48, 21.12⟩, ⟨60, 26.40⟩,
   ⟨80, 35.20⟩, ⟨100, 44.00⟩, ⟨120, 49.28⟩, ⟨140, 56.32⟩, ⟨160, 61.60⟩,
   ⟨180, 68.64⟩, ⟨200, 75.68⟩]

/-- The `for`-loop of `getCostForLength`: return the first tier cost with
`length ≤ tier.length`, or the fallback once the table is exhausted. -/
def scanTiers (l dflt : ℚ) : List CostTier → ℚ
  | [] => dflt
  | t :: ts => if l ≤ t.length then t.cost else scanTiers l dflt ts

/-- `getCostForLength` (`part_002` lines 235-240): scan the table in order;
if the length exceeds every tier, fall back to the last (maximum) tier's
cost. -/
def getCostForLength (l : ℚ) : ℚ :=
  scanTiers l (COST_TABLE.getLastD ⟨0, 0⟩).cost COST_TABLE

/-- Ceiling division on naturals, the arithmetic content of
`Math.ceil(a / b)` for nonnegative integers. -/
def ceilDivN (a b : ℕ) : ℕ := (a + b - 1) / b

/-! Numeric values of the constants. -/

theorem safeMarginPts_eq : safeMarginPts = 9 := by
  norm_num [safeMarginPts, SAFE_MARGIN_INCH, POINTS_PER_INCH]

theorem spacingPts_eq : spacingPts = 36 := by
  norm_num [spacingPts, SPACING_INCH, POINTS_PER_INCH]

theorem sheetWidthPts_eq : sheetWidthPts = 1584 := by
  norm_num [sheetWidthPts, SHEET_WIDTH_INCH, POINTS_PER_INCH]

theorem maxHeightPts_eq : maxHeightPts = 14400 := by
  norm_num [maxHeightPts, MAX_SHEET_HEIGHT_INCH, POINTS_PER_INCH]

/-! Bridging `Math.ceil` on rationals with `ceilDivN`. -/

theorem ceilDivN_bounds (c p : ℕ) (hp : 1 ≤ p) :
    c ≤ ceilDivN c p * p ∧ ceilDivN c p * p < c + p := by
  have hmod := Nat.div_add_mod (c + p - 1) p
  have hrlt : (c + p - 1) % p < p := Nat.mod_lt _ hp
  have hub := Nat.div_mul_le_self (c + p - 1) p
  unfold ceilDivN
  constructor
  · rw [mul_comm]
    omega
  · omega

theorem ceil_natCast_div (c p : ℕ) (hp : 1 ≤ p) :
    ⌈(c : ℚ) / (p : ℚ)⌉ = (ceilDivN c p : ℤ) := by
  have hp0 : (0 : ℚ) < p := by exact_mod_cast hp
  obtain ⟨h1, h2⟩ := ceilDivN_bounds c p hp
  rw [Int.ceil_eq_iff]
  constructor
  · rw [lt_div_iff₀ hp0, sub_mul, one_mul, sub_lt_iff_lt_add]
    exact_mod_cast h2
  · rw [div_le_iff₀ hp0]
    exact_mod_cast h1

theorem le_ceilDivN_mul (q L : ℕ) (hL : 1 ≤ L) : q ≤ ceilDivN q L * L :=
  (ceilDivN_bounds q L hL).1

theorem intCast_toNat_q (P : ℤ) (h0 : 0 ≤ P) :
    ((P : ℚ)) = ((P.toNat : ℕ) : ℚ) := by
  exact_mod_cast congrArg (fun z : ℤ => (z : ℚ)) (Int.toNat_of_nonneg h0).symm

theorem usedRows_eq (P : ℤ) (c : ℕ) (hP : 1 ≤ P) :
    usedRows P c = (ceilDivN c P.toNat : ℤ) := by
  rw [usedRows, intCast_toNat_q P (by omega), ceil_natCast_div _ _ (by omega)]

theorem totalSheetsNeeded_toNat (w h : ℚ) (q : ℕ)
    (hL : 1 ≤ logosPerSheet w h) :
    (totalSheetsNeeded w h q).toNat = ceilDivN q (logosPerSheet w h).toNat := by
  rw [totalSheetsNeeded, intCast_toNat_q _ (by omega), ceil_natCast_div _ _ (by omega)]
  omega

/-! Structural facts about the multi-sheet loop. -/

theorem multiLoop_sum (L : ℕ) :
    ∀ n q, q ≤ n * L → (multiLoop n q L).sum = q := by
  intro n
  induction n with
  | zero => intro q hq; simp at hq; simp [multiLoop, hq]
  | succ n ih =>
      intro q hq
      simp only [multiLoop, List.sum_cons]
      rcases le_or_lt q L with h | h
      · rw [min_eq_left h, Nat.sub_self, ih 0 (Nat.zero_le _)]
        omega
      · rw [min_eq_right h.le, ih (q - L) (by rw [Nat.succ_mul] at hq; omega)]
        omega

theorem multiLoop_mem_le (L : ℕ) :
    ∀ n q c, c ∈ multiLoop n q L → c ≤ L := by
  intro n
  induction n with
  | zero => intro q c hc; simp [multiLoop] at hc
  | succ n ih =>
      intro q c hc
      simp only [multiLoop, List.mem_cons] at hc
      rcases hc with rfl | hc
      · exact min_le_right _ _
      · exact ih _ _ hc

theorem multiLoop_length (L : ℕ) (n q : ℕ) : (multiLoop n q L).length = n := by
  induction n generalizing q with
  | zero => simp [multiLoop]
  | succ n ih => simp [multiLoop, ih]

theorem multiCounts_eq (w h : ℚ) (q : ℕ) (hL : 1 ≤ logosPerSheet w h) :
    multiCounts w h q =
      multiLoop (ceilDivN q (logosPerSheet w h).toNat) q (logosPerSheet w h).toNat := by
  rw [multiCounts, totalSheetsNeeded_toNat w h q hL]

theorem one_le_logosPerSheet (w h : ℚ)
    (hP : 1 ≤ logosPerRow w) (hR : 1 ≤ rowsPerSheet h) :
    1 ≤ logosPerSheet w h := by
  have := mul_le_mul hP hR zero_le_one (le_trans zero_le_one hP)
  simpa [logosPerSheet] using this

/-! Concrete evaluations used by witnesses (asset dimensions in points). -/

theorem logosPerRow_288 : logosPerRow 288 = 4 := by
  rw [logosPerRow, Int.floor_eq_iff]
  constructor <;>
    norm_num [logoTotalWidth, sheetWidthPts_eq, safeMarginPts_eq, spacingPts_eq]

theorem rowsPerSheet_144 : rowsPerSheet 144 = 80 := by
  rw [rowsPerSheet, Int.floor_eq_iff]
  constructor <;>
    norm_num [logoTotalHeight, maxHeightPts_eq, safeMarginPts_eq, spacingPts_eq]

theorem logosPerRow_72 : logosPerRow 72 = 14 := by
  rw [logosPerRow, Int.floor_eq_iff]
  constructor <;>
    norm_num [logoTotalWidth, sheetWidthPts_eq, safeMarginPts_eq, spacingPts_eq]

theorem rowsPerSheet_720 : rowsPerSheet 720 = 19 := by
  rw [rowsPerSheet, Int.floor_eq_iff]
  constructor <;>
    norm_num [logoTotalHeight, maxHeightPts_eq, safeMarginPts_eq, spacingPts_eq]

theorem rowsPerSheet_21600 : rowsPerSheet 21600 = 0 := by
  rw [rowsPerSheet, Int.floor_eq_iff]
  constructor <;>
    norm_num [logoTotalHeight, maxHeightPts_eq, safeMarginPts_eq, spacingPts_eq]

/-- C1: Conservation.  For every valid request (quantity ≥ 1, at least one
column and one row fitting), the pagination over the copy queue produces
sheets whose placed-copy counts sum exactly to the requested quantity: no
copy is dropped and none is duplicated across the produced sheets. -/
theorem c1_conservation (bw bh : ℚ) (rot : Bool) (q : ℕ)
    (hP : 1 ≤ logosPerRow (orientedW bw bh rot))
    (hR : 1 ≤ rowsPerSheet (orientedH bw bh rot))
    (hq : 1 ≤ q) :
    totalPlaced (generateSheets bw bh rot q) = some q := by
  have hL : 1 ≤ logosPerSheet (orientedW bw bh rot) (orientedH bw bh rot) :=
    one_le_logosPerSheet _ _ hP hR
  simp only [generateSheets]
  rw [if_neg (by omega), if_neg (by rintro ⟨e, -⟩; omega)]
  simp only [totalPlaced, List.map_map]
  have hcomp : (Sheet.count ∘
      mkSheet (orientedW bw bh rot) (orientedH bw bh rot)
        (logosPerRow (orientedW bw bh rot))) = id := by
    funext c
    rfl
  rw [hcomp, List.map_id, multiCounts_eq _ _ _ hL,
    multiLoop_sum _ _ _ (le_ceilDivN_mul q _ (by omega))]

/-- Witness for C1 at Scenario 1's numbers: a 288×144 pt (4"×2") asset,
unrotated, quantity 50. -/
theorem c1_conservation_witness :
    totalPlaced (generateSheets 288 144 false 50) = some 50 := by
  have hP : 1 ≤ logosPerRow (orientedW 288 144 false) := by
    rw [show orientedW 288 144 false = 288 from rfl, logosPerRow_288]
    omega
  have hR : 1 ≤ rowsPerSheet (orientedH 288 144 false) := by
    rw [show orientedH 288 144 false = 144 from rfl, rowsPerSheet_144]
    omega
  exact c1_conservation 288 144 false 50 hP hR (by omega)

/-- C3: AssetTooWideError.  The layout fails with the asset-too-wide error
(and produces no sheets) exactly when `logosPerRow < 1`; when
`logosPerRow ≥ 1` this error is never raised. -/
theorem c3_too_wide_iff (bw bh : ℚ) (rot : Bool) (q : ℕ) :
    generateSheets bw bh rot q = .error "Logo too wide for sheet" ↔
      logosPerRow (orientedW bw bh rot) < 1 := by
  simp only [generateSheets]
  by_cases h1 : logosPerRow (orientedW bw bh rot) < 1
  · simp [h1]
  · rw [if_neg h1]
    simp only [h1, iff_false]
    split <;> simp

/-- C4: the code has no asset-too-tall error.  For a 288×21600 pt
(4"×300") unrotated asset, the oriented height leaves no room for a single
row (`rowsPerSheet = 0`), so `logosPerSheet = 0` and
`totalSheetsNeeded = Math.ceil(1/0) = Infinity` in JS: the sheet loop never
terminates (modelled as `.ok none`) instead of failing fast with an
asset-too-tall error. -/
theorem c4_too_tall_eval :
    rowsPerSheet (orientedH 288 21600 false) = 0 ∧
      generateSheets 288 21600 false 1 = .ok none := by
  have hr : rowsPerSheet (orientedH 288 21600 false) = 0 := by
    rw [show orientedH 288 21600 false = 21600 from rfl, rowsPerSheet_21600]
  have hp : logosPerRow (orientedW 288 21600 false) = 4 := by
    rw [show orientedW 288 21600 false = 288 from rfl, logosPerRow_288]
  refine ⟨hr, ?_⟩
  simp only [generateSheets]
  rw [if_neg (by omega), if_pos ⟨by rw [logosPerSheet, hr, mul_zero], by omega⟩]

/-- C2: rotation-to-coordinate rule.  The spec (and the grid variants of the
code) place a rotated tile at `x + orientedWidth` (pre-rotation height), but
`drawLogo` in `index.js` shifts the PDF anchor by `logoHeightPts`, the
oriented height (pre-rotation width): for a 288×144 pt rotated asset at cell
x = 9 the anchor lands at 297, not 9 + orientedWidth = 153, and the drawn
box misses the intended cell entirely. -/
theorem c2_rotation_offset_eval :
    (drawLogoPdfAnchor true 288 144 9 9).1 = 297 ∧
      9 + orientedW 288 144 true = 153 ∧
      (drawLogoPdfAnchor true 288 144 9 9).1 ≠ 9 + orientedW 288 144 true ∧
      ¬ ((drawLogoBoxPdf true 288 144 9 9).x1 ≤ 9 + orientedW 288 144 true) := by
  refine ⟨?_, ?_, ?_, ?_⟩ <;>
    norm_num [drawLogoPdfAnchor, drawLogoBoxPdf, orientedH, orientedW]

/-! Height bounds for produced sheets. -/

theorem pointsPerInch_pos : (0 : ℚ) < POINTS_PER_INCH := by
  norm_num [POINTS_PER_INCH]

theorem usedHeightPts_le_rounded (h : ℚ) (r : ℤ) :
    usedHeightPts h r ≤ roundedHeightPts h r := by
  rw [roundedHeightPts]
  have hle := Int.le_ceil (usedHeightPts h r / POINTS_PER_INCH)
  calc usedHeightPts h r
      = usedHeightPts h r / POINTS_PER_INCH * POINTS_PER_INCH :=
        (div_mul_cancel₀ _ pointsPerInch_pos.ne').symm
    _ ≤ ⌈usedHeightPts h r / POINTS_PER_INCH⌉ * POINTS_PER_INCH :=
        mul_le_mul_of_nonneg_right hle pointsPerInch_pos.le

theorem logoTotalHeight_pos (h : ℚ) (hh : 0 < h) : 0 < logoTotalHeight h := by
  rw [logoTotalHeight, spacingPts_eq]
  linarith

theorem usedHeightPts_le_max (h : ℚ) (r : ℤ) (hh : 0 < h)
    (hr : r ≤ rowsPerSheet h) : usedHeightPts h r ≤ maxHeightPts := by
  have hhs := logoTotalHeight_pos h hh
  have h1 : ((rowsPerSheet h : ℤ) : ℚ) ≤
      (maxHeightPts - safeMarginPts * 2 + spacingPts) / logoTotalHeight h :=
    Int.floor_le _
  have h2 : (r : ℚ) ≤ ((rowsPerSheet h : ℤ) : ℚ) := by exact_mod_cast hr
  have h3 : (r : ℚ) * logoTotalHeight h ≤
      maxHeightPts - safeMarginPts * 2 + spacingPts := by
    calc (r : ℚ) * logoTotalHeight h
        ≤ ((rowsPerSheet h : ℤ) : ℚ) * logoTotalHeight h :=
          mul_le_mul_of_nonneg_right h2 hhs.le
      _ ≤ maxHeightPts - safeMarginPts * 2 + spacingPts :=
          (le_div_iff₀ hhs).mp h1
  rw [usedHeightPts]
  linarith

theorem roundedHeightPts_le_max (h : ℚ) (r : ℤ) (hh : 0 < h)
    (hr : r ≤ rowsPerSheet h) : roundedHeightPts h r ≤ maxHeightPts := by
  have h4 := usedHeightPts_le_max h r hh hr
  rw [roundedHeightPts]
  have hdiv : usedHeightPts h r / POINTS_PER_INCH ≤ 200 := by
    rw [div_le_iff₀ pointsPerInch_pos]
    rw [maxHeightPts_eq] at h4
    norm_num [POINTS_PER_INCH]
    linarith
  have hceil : ⌈usedHeightPts h r / POINTS_PER_INCH⌉ ≤ 200 := by
    calc ⌈usedHeightPts h r / POINTS_PER_INCH⌉ ≤ ⌈(200 : ℚ)⌉ := Int.ceil_mono hdiv
      _ = 200 := by norm_num
  have hceilq : (⌈usedHeightPts h r / POINTS_PER_INCH⌉ : ℚ) ≤ 200 := by
    exact_mod_cast hceil
  rw [maxHeightPts_eq]
  calc (⌈usedHeightPts h r / POINTS_PER_INCH⌉ : ℚ) * POINTS_PER_INCH
      ≤ 200 * POINTS_PER_INCH :=
        mul_le_mul_of_nonneg_right hceilq pointsPerInch_pos.le
    _ = 14400 := by norm_num [POINTS_PER_INCH]

theorem usedRows_le_rowsPerSheet (w h : ℚ) (c : ℕ)
    (hP : 1 ≤ logosPerRow w) (hL : 1 ≤ logosPerSheet w h)
    (hc : c ≤ (logosPerSheet w h).toNat) :
    usedRows (logosPerRow w) c ≤ rowsPerSheet h := by
  have hP0 : (0 : ℚ) < (logosPerRow w : ℚ) := by exact_mod_cast hP
  rw [usedRows, Int.ceil_le, div_le_iff₀ hP0]
  have hcz : (c : ℤ) ≤ logosPerSheet w h := by omega
  have : (c : ℚ) ≤ ((logosPerSheet w h : ℤ) : ℚ) := by exact_mod_cast hcz
  rw [logosPerSheet] at this
  push_cast at this ⊢
  linarith [this]

/-- Destructs a successful run of `generateSheets` into its copy counts. -/
theorem generateSheets_ok (bw bh : ℚ) (rot : Bool) (q : ℕ)
    (hP : 1 ≤ logosPerRow (orientedW bw bh rot))
    (hR : 1 ≤ rowsPerSheet (orientedH bw bh rot)) :
    generateSheets bw bh rot q =
      .ok (some ((multiCounts (orientedW bw bh rot) (orientedH bw bh rot) q).map
        (mkSheet (orientedW bw bh rot) (orientedH bw bh rot)
          (logosPerRow (orientedW bw bh rot))))) := by
  have hL : 1 ≤ logosPerSheet (orientedW bw bh rot) (orientedH bw bh rot) :=
    one_le_logosPerSheet _ _ hP hR
  simp only [generateSheets]
  rw [if_neg (by omega), if_neg (by rintro ⟨e, -⟩; omega)]

/-- C6: height rounding monotonicity.  Every produced sheet's final height is
the raw required height rounded up to the next whole inch; it is never less
than the raw height and never exceeds `maxHeightPts`. -/
theorem c6_height_rounding (bw bh : ℚ) (rot : Bool) (q : ℕ)
    (sheets : List Sheet) (s : Sheet)
    (hh : 0 < orientedH bw bh rot)
    (hP : 1 ≤ logosPerRow (orientedW bw bh rot))
    (hR : 1 ≤ rowsPerSheet (orientedH bw bh rot))
    (hgen : generateSheets bw bh rot q = .ok (some sheets))
    (hmem : s ∈ sheets) :
    s.heightPts =
        ⌈usedHeightPts (orientedH bw bh rot)
            (usedRows (logosPerRow (orientedW bw bh rot)) s.count) /
          POINTS_PER_INCH⌉ * POINTS_PER_INCH ∧
      usedHeightPts (orientedH bw bh rot)
          (usedRows (logosPerRow (orientedW bw bh rot)) s.count) ≤ s.heightPts ∧
      s.heightPts ≤ maxHeightPts := by
  rw [generateSheets_ok bw bh rot q hP hR] at hgen
  have hsheets : sheets =
      (multiCounts (orientedW bw bh rot) (orientedH bw bh rot) q).map
        (mkSheet (orientedW bw bh rot) (orientedH bw bh rot)
          (logosPerRow (orientedW bw bh rot))) := by
    injection hgen with hgen'
    exact (Option.some.inj hgen').symm
  subst hsheets
  obtain ⟨c, hcmem, rfl⟩ := List.mem_map.mp hmem
  have hL : 1 ≤ logosPerSheet (orientedW bw bh rot) (orientedH bw bh rot) :=
    one_le_logosPerSheet _ _ hP hR
  have hcle : c ≤ (logosPerSheet (orientedW bw bh rot) (orientedH bw bh rot)).toNat := by
    rw [multiCounts_eq _ _ _ hL] at hcmem
    exact multiLoop_mem_le _ _ _ _ hcmem
  have hrle := usedRows_le_rowsPerSheet (orientedW bw bh rot) (orientedH bw bh rot) c hP hL hcle
  refine ⟨rfl, ?_, ?_⟩
  · exact usedHeightPts_le_rounded _ _
  · exact roundedHeightPts_le_max _ _ hh hrle

theorem orientedW_off (bw bh : ℚ) : orientedW bw bh false = bw := rfl

theorem orientedH_off (bw bh : ℚ) : orientedH bw bh false = bh := rfl

theorem orientedW_on (bw bh : ℚ) : orientedW bw bh true = bh := rfl

theorem orientedH_on (bw bh : ℚ) : orientedH bw bh true = bw := rfl

theorem rowsPerSheet_72 : rowsPerSheet 72 = 133 := by
  rw [rowsPerSheet, Int.floor_eq_iff]
  constructor <;>
    norm_num [logoTotalHeight, maxHeightPts_eq, safeMarginPts_eq, spacingPts_eq]

theorem logosPerSheet_72_72 : logosPerSheet 72 72 = 1862 := by
  rw [logosPerSheet, logosPerRow_72, rowsPerSheet_72]
  norm_num

theorem multiCounts_72_72_1 : multiCounts 72 72 1 = [1] := by
  rw [multiCounts_eq 72 72 1 (by rw [logosPerSheet_72_72]; omega), logosPerSheet_72_72]
  norm_num [ceilDivN, multiLoop]

theorem generateSheets_72_72 : generateSheets 72 72 false 1 =
    .ok (some [mkSheet 72 72 (logosPerRow 72) 1]) := by
  have hP : 1 ≤ logosPerRow (orientedW 72 72 false) := by
    rw [orientedW_off, logosPerRow_72]
    omega
  have hR : 1 ≤ rowsPerSheet (orientedH 72 72 false) := by
    rw [orientedH_off, rowsPerSheet_72]
    omega
  rw [generateSheets_ok 72 72 false 1 hP hR, orientedW_off, orientedH_off,
    multiCounts_72_72_1]
  rfl

/-- Witness for C6 at a 72×72 pt (1"×1") asset, quantity 1: the single
produced sheet is one row of tiles, rounded up to 144 pts, between its raw
height and `maxHeightPts`. -/
theorem c6_height_rounding_witness :
    (mkSheet 72 72 (logosPerRow 72) 1).heightPts =
        ⌈usedHeightPts 72 (usedRows (logosPerRow 72)
            (mkSheet 72 72 (logosPerRow 72) 1).count) /
          POINTS_PER_INCH⌉ * POINTS_PER_INCH ∧
      usedHeightPts 72 (usedRows (logosPerRow 72)
          (mkSheet 72 72 (logosPerRow 72) 1).count) ≤
        (mkSheet 72 72 (logosPerRow 72) 1).heightPts ∧
      (mkSheet 72 72 (logosPerRow 72) 1).heightPts ≤ maxHeightPts := by
  have hh : (0 : ℚ) < orientedH 72 72 false := by
    rw [orientedH_off]
    norm_num
  have hP : 1 ≤ logosPerRow (orientedW 72 72 false) := by
    rw [orientedW_off, logosPerRow_72]
    omega
  have hR : 1 ≤ rowsPerSheet (orientedH 72 72 false) := by
    rw [orientedH_off, rowsPerSheet_72]
    omega
  have := c6_height_rounding 72 72 false 1 [mkSheet 72 72 (logosPerRow 72) 1]
    (mkSheet 72 72 (logosPerRow 72) 1) hh hP hR generateSheets_72_72 (by simp)
  simpa [orientedW_off, orientedH_off] using this

theorem logosPerSheet_288_144 : logosPerSheet 288 144 = 320 := by
  rw [logosPerSheet, logosPerRow_288, rowsPerSheet_144]
  norm_num

theorem usedRows_4_50 : usedRows 4 50 = 13 := by
  rw [usedRows, Int.ceil_eq_iff]
  constructor <;> norm_num

theorem multiCounts_288_144_50 : multiCounts 288 144 50 = [50] := by
  rw [multiCounts_eq 288 144 50 (by rw [logosPerSheet_288_144]; omega),
    logosPerSheet_288_144]
  norm_num [ceilDivN, multiLoop]

/-- C9: Scenario 1.  A 288×144 pt (4"×2") asset on the 22-inch sheet with
0.125-inch margin, 0.5-inch spacing, 200-inch max height, quantity 50,
unrotated: 4 columns per row, 13 rows needed, a single sheet whose height is
the 13-row raw height rounded up to a whole inch (2376 pts = 33 inches). -/
theorem c9_scenario1 :
    logosPerRow 288 = 4 ∧
      usedRows (logosPerRow 288) 50 = 13 ∧
      totalSheetsNeeded 288 144 50 = 1 ∧
      generateSheets 288 144 false 50 =
        .ok (some [mkSheet 288 144 (logosPerRow 288) 50]) ∧
      (mkSheet 288 144 (logosPerRow 288) 50).heightPts =
        roundedHeightPts 144 13 ∧
      roundedHeightPts 144 13 = 2376 := by
  have h1 := logosPerRow_288
  have h2 : usedRows (logosPerRow 288) 50 = 13 := by
    rw [h1]
    exact usedRows_4_50
  have h3 : totalSheetsNeeded 288 144 50 = 1 := by
    rw [totalSheetsNeeded, logosPerSheet_288_144, Int.ceil_eq_iff]
    constructor <;> norm_num
  have hP : 1 ≤ logosPerRow (orientedW 288 144 false) := by
    rw [orientedW_off, h1]
    omega
  have hR : 1 ≤ rowsPerSheet (orientedH 288 144 false) := by
    rw [orientedH_off, rowsPerSheet_144]
    omega
  have h4 : generateSheets 288 144 false 50 =
      .ok (some [mkSheet 288 144 (logosPerRow 288) 50]) := by
    rw [generateSheets_ok 288 144 false 50 hP hR, orientedW_off, orientedH_off,
      multiCounts_288_144_50]
    rfl
  have h5 : (mkSheet 288 144 (logosPerRow 288) 50).heightPts =
      roundedHeightPts 144 13 := by
    show roundedHeightPts 144 (usedRows (logosPerRow 288) 50) = roundedHeightPts 144 13
    rw [h2]
  have h6 : roundedHeightPts 144 13 = 2376 := by
    rw [roundedHeightPts]
    have hc : ⌈usedHeightPts 144 13 / POINTS_PER_INCH⌉ = 33 := by
      rw [Int.ceil_eq_iff]
      constructor <;>
        norm_num [usedHeightPts, logoTotalHeight, safeMarginPts_eq, spacingPts_eq,
          POINTS_PER_INCH]
    rw [hc]
    norm_num [POINTS_PER_INCH]
  exact ⟨h1, h2, h3, h4, h5, h6⟩

/-! Analysis of the iterative pagination step. -/

theorem usedHeightPts_mono (h : ℚ) (hh : 0 < h) {r1 r2 : ℤ} (hr : r1 ≤ r2) :
    usedHeightPts h r1 ≤ usedHeightPts h r2 := by
  rw [usedHeightPts, usedHeightPts]
  have hpos := logoTotalHeight_pos h hh
  have hrq : (r1 : ℚ) ≤ r2 := by exact_mod_cast hr
  have := mul_le_mul_of_nonneg_right hrq hpos.le
  linarith

theorem maxHeightPts_lt_usedHeightPts_succ (h : ℚ) (hh : 0 < h) :
    maxHeightPts < usedHeightPts h (rowsPerSheet h + 1) := by
  have hpos := logoTotalHeight_pos h hh
  have hx := Int.lt_floor_add_one
    ((maxHeightPts - safeMarginPts * 2 + spacingPts) / logoTotalHeight h)
  rw [div_lt_iff₀ hpos] at hx
  rw [usedHeightPts, rowsPerSheet]
  push_cast
  push_cast at hx
  linarith

theorem ceil_maxHeight : ⌈maxHeightPts / POINTS_PER_INCH⌉ * POINTS_PER_INCH
    = maxHeightPts := by
  rw [maxHeightPts_eq]
  norm_num [POINTS_PER_INCH]

theorem iterRequiredHeight_eq (w h : ℚ) (rem : ℕ) :
    iterRequiredHeight w h rem = usedHeightPts h (iterRowsNeeded w rem) := by
  rw [iterRequiredHeight, usedHeightPts, logoTotalHeight]
  push_cast
  ring

/-- Core step lemma: when at least one column and one row fit, one iteration
of the `while (remaining > 0)` loop consumes exactly
`min remaining logosPerSheet` copies — the same number as one sheet of the
precomputed pagination. -/
theorem iterConsumed_eq (w h : ℚ) (rem : ℕ)
    (hh : 0 < h) (hP : 1 ≤ logosPerRow w) (hR : 1 ≤ rowsPerSheet h)
    (hrem : 1 ≤ rem) :
    iterConsumed w h rem = min rem (logosPerSheet w h).toNat := by
  have hhs := logoTotalHeight_pos h hh
  have hP0 : (0 : ℚ) < (logosPerRow w : ℚ) := by exact_mod_cast hP
  have hL : 1 ≤ logosPerSheet w h := one_le_logosPerSheet w h hP hR
  have hrn_ge : ((rem : ℚ)) / (logosPerRow w : ℚ) ≤ iterRowsNeeded w rem :=
    Int.le_ceil _
  have hrem_le_rnP : (rem : ℚ) ≤ (iterRowsNeeded w rem : ℚ) * (logosPerRow w : ℚ) := by
    rw [← div_le_iff₀ hP0]
    exact hrn_ge
  rcases le_or_lt rem (logosPerSheet w h).toNat with hcase | hcase
  · -- the final (or only) sheet: everything remaining fits
    have hremL : (rem : ℤ) ≤ logosPerRow w * rowsPerSheet h := by
      rw [← logosPerSheet]
      omega
    have hrnR : iterRowsNeeded w rem ≤ rowsPerSheet h := by
      rw [iterRowsNeeded, Int.ceil_le, div_le_iff₀ hP0]
      have : ((rem : ℤ) : ℚ) ≤ ((logosPerRow w * rowsPerSheet h : ℤ) : ℚ) := by
        exact_mod_cast hremL
      push_cast at this
      push_cast
      linarith
    have hreq_le : iterRequiredHeight w h rem ≤ maxHeightPts := by
      rw [iterRequiredHeight_eq]
      exact usedHeightPts_le_max h _ hh hrnR
    have hsheet : iterSheetHeight w h rem = usedHeightPts h (iterRowsNeeded w rem) := by
      rw [iterSheetHeight, min_eq_left hreq_le, iterRequiredHeight_eq]
    have hround : iterRoundedHeight w h rem = roundedHeightPts h (iterRowsNeeded w rem) := by
      rw [iterRoundedHeight, hsheet, roundedHeightPts]
    have hrows_ge : iterRowsNeeded w rem ≤ iterRowsPerSheet w h rem := by
      rw [iterRowsPerSheet, hround, Int.le_floor, le_div_iff₀ hhs]
      have := usedHeightPts_le_rounded h (iterRowsNeeded w rem)
      rw [usedHeightPts] at this
      linarith
    have hcap : (rem : ℤ) ≤ iterMaxPerSheet w h rem := by
      rw [iterMaxPerSheet]
      have h1 : (iterRowsNeeded w rem : ℚ) * (logosPerRow w : ℚ) ≤
          (iterRowsPerSheet w h rem : ℚ) * (logosPerRow w : ℚ) := by
        have : (iterRowsNeeded w rem : ℚ) ≤ (iterRowsPerSheet w h rem : ℚ) := by
          exact_mod_cast hrows_ge
        exact mul_le_mul_of_nonneg_right this hP0.le
      have h2 : (rem : ℚ) ≤ (iterRowsPerSheet w h rem : ℚ) * (logosPerRow w : ℚ) :=
        le_trans hrem_le_rnP h1
      exact_mod_cast h2
    rw [iterConsumed]
    omega
  · -- a full sheet: the remaining copies exceed one sheet's capacity
    have hLt : logosPerRow w * rowsPerSheet h < (rem : ℤ) := by
      rw [← logosPerSheet]
      omega
    have hrnR : rowsPerSheet h + 1 ≤ iterRowsNeeded w rem := by
      rw [iterRowsNeeded, Int.add_one_le_iff, Int.lt_ceil, lt_div_iff₀ hP0]
      have : ((logosPerRow w * rowsPerSheet h : ℤ) : ℚ) < ((rem : ℤ) : ℚ) := by
        exact_mod_cast hLt
      push_cast at this
      push_cast
      linarith
    have hreq_gt : maxHeightPts ≤ iterRequiredHeight w h rem := by
      rw [iterRequiredHeight_eq]
      calc maxHeightPts ≤ usedHeightPts h (rowsPerSheet h + 1) :=
            (maxHeightPts_lt_usedHeightPts_succ h hh).le
        _ ≤ usedHeightPts h (iterRowsNeeded w rem) := usedHeightPts_mono h hh hrnR
    have hsheet : iterSheetHeight w h rem = maxHeightPts := by
      rw [iterSheetHeight, min_eq_right hreq_gt]
    have hround : iterRoundedHeight w h rem = maxHeightPts := by
      rw [iterRoundedHeight, hsheet, ceil_maxHeight]
    have hrows : iterRowsPerSheet w h rem = rowsPerSheet h := by
      rw [iterRowsPerSheet, hround, rowsPerSheet]
    have hmax : iterMaxPerSheet w h rem = logosPerSheet w h := by
      rw [iterMaxPerSheet, hrows, logosPerSheet, mul_comm]
    rw [iterConsumed, hmax]

/-! Recursion facts for ceiling division. -/

theorem ceilDivN_succ_form (rem L : ℕ) (hrem : 1 ≤ rem) (hL : 1 ≤ L) :
    ceilDivN rem L = (rem - 1) / L + 1 := by
  unfold ceilDivN
  have he : rem + L - 1 = (rem - 1) + L := by omega
  rw [he, Nat.add_div_right _ (by omega)]

theorem ceilDivN_zero (L : ℕ) (hL : 1 ≤ L) : ceilDivN 0 L = 0 := by
  unfold ceilDivN
  exact Nat.div_eq_of_lt (by omega)

theorem ceilDivN_one (rem L : ℕ) (hrem : 1 ≤ rem) (hle : rem ≤ L) :
    ceilDivN rem L = 1 := by
  rw [ceilDivN_succ_form rem L hrem (by omega), Nat.div_eq_of_lt (by omega)]

theorem ceilDivN_sub (rem L : ℕ) (hL : 1 ≤ L) (hlt : L < rem) :
    ceilDivN (rem - L) L = ceilDivN rem L - 1 := by
  rw [ceilDivN_succ_form (rem - L) L (by omega) hL,
    ceilDivN_succ_form rem L (by omega) hL]
  have he : rem - 1 = (rem - L - 1) + L := by omega
  rw [he, Nat.add_div_right _ (by omega)]
  exact (Nat.succ_sub_one _).symm

theorem one_le_ceilDivN (rem L : ℕ) (hrem : 1 ≤ rem) (hL : 1 ≤ L) :
    1 ≤ ceilDivN rem L := by
  rw [ceilDivN_succ_form rem L hrem hL]
  exact Nat.le_add_left 1 _

/-- With the step lemma, the iterative loop coincides with the precomputed
multi-sheet loop whenever the fuel covers the remaining count. -/
theorem iterLoop_eq_multiLoop (w h : ℚ)
    (hh : 0 < h) (hP : 1 ≤ logosPerRow w) (hR : 1 ≤ rowsPerSheet h) :
    ∀ fuel rem, rem ≤ fuel →
      iterLoop w h fuel rem =
        multiLoop (ceilDivN rem (logosPerSheet w h).toNat) rem
          (logosPerSheet w h).toNat := by
  have hL := one_le_logosPerSheet w h hP hR
  have hL1 : 1 ≤ (logosPerSheet w h).toNat := by omega
  intro fuel
  induction fuel with
  | zero =>
      intro rem hle
      have : rem = 0 := by omega
      subst this
      rw [ceilDivN_zero _ hL1]
      rfl
  | succ fuel ih =>
      intro rem hle
      cases rem with
      | zero =>
          rw [ceilDivN_zero _ hL1]
          rfl
      | succ r =>
          have hstep := iterConsumed_eq w h (r + 1) hh hP hR (by omega)
          obtain ⟨m, hm⟩ : ∃ m, ceilDivN (r + 1) (logosPerSheet w h).toNat = m + 1 :=
            ⟨ceilDivN (r + 1) (logosPerSheet w h).toNat - 1,
              by have := one_le_ceilDivN (r + 1) _ (by omega) hL1; omega⟩
          rw [hm]
          simp only [iterLoop, multiLoop, hstep]
          congr 1
          have hrec := ih (r + 1 - min (r + 1) (logosPerSheet w h).toNat)
            (by omega)
          rw [hrec]
          congr 1
          rcases le_or_lt (r + 1) (logosPerSheet w h).toNat with hc | hc
          · rw [min_eq_left hc, Nat.sub_self, ceilDivN_zero _ hL1]
            rw [ceilDivN_one (r + 1) _ (by omega) hc] at hm
            omega
          · rw [min_eq_right hc.le, ceilDivN_sub (r + 1) _ hL1 hc, hm]
            omega

/-- C5: pagination termination.  When the asset fits (at least one column and
one row), every iteration of the `while (remaining > 0)` loop consumes at
least one copy, so the loop drains the whole queue in at most `q` sheets. -/
theorem c5_termination (w h : ℚ) (q : ℕ)
    (hh : 0 < h) (hP : 1 ≤ logosPerRow w) (hR : 1 ≤ rowsPerSheet h) :
    (∀ rem, 1 ≤ rem → 1 ≤ iterConsumed w h rem) ∧
      (iterPaginate w h q).length ≤ q ∧
      (iterPaginate w h q).sum = q := by
  have hL := one_le_logosPerSheet w h hP hR
  have hstep : ∀ rem, 1 ≤ rem → 1 ≤ iterConsumed w h rem := by
    intro rem hrem
    rw [iterConsumed_eq w h rem hh hP hR hrem]
    omega
  refine ⟨hstep, ?_⟩
  have main : ∀ fuel rem, rem ≤ fuel →
      (iterLoop w h fuel rem).length ≤ rem ∧ (iterLoop w h fuel rem).sum = rem := by
    intro fuel
    induction fuel with
    | zero =>
        intro rem hle
        have : rem = 0 := by omega
        subst this
        exact ⟨by simp [iterLoop], by simp [iterLoop]⟩
    | succ fuel ih =>
        intro rem hle
        cases rem with
        | zero => exact ⟨by simp [iterLoop], by simp [iterLoop]⟩
        | succ r =>
            have hc := hstep (r + 1) (by omega)
            have hcle : iterConsumed w h (r + 1) ≤ r + 1 := by
              rw [iterConsumed]
              exact min_le_left _ _
            obtain ⟨hlen, hsum⟩ := ih (r + 1 - iterConsumed w h (r + 1)) (by omega)
            constructor
            · simp only [iterLoop, List.length_cons]
              omega
            · simp only [iterLoop, List.sum_cons]
              omega
  obtain ⟨hlen, hsum⟩ := main q q le_rfl
  exact ⟨hlen, hsum⟩

/-- Witness for C5 at a 288×144 pt asset, quantity 5: the single iteration
consumes all five copies. -/
theorem c5_termination_witness :
    1 ≤ iterConsumed 288 144 5 ∧
      (iterPaginate 288 144 5).length ≤ 5 ∧
      (iterPaginate 288 144 5).sum = 5 := by
  have hc := c5_termination 288 144 5 (by norm_num)
    (by rw [logosPerRow_288]; omega) (by rw [rowsPerSheet_144]; omega)
  exact ⟨hc.1 5 (by omega), hc.2.1, hc.2.2⟩

/-- C10: pagination variant equivalence.  For every quantity and every
footprint with at least one column and one row fitting, the iterative
pagination (which recomputes each sheet's row capacity from the
capped-and-rounded required height of the remaining copies) produces exactly
the per-sheet copy counts of the precomputed-capacity pagination
(`totalSheetsNeeded` sheets of `min remaining logosPerSheet` copies each). -/
theorem c10_pagination_equiv (w h : ℚ) (q : ℕ)
    (hh : 0 < h) (hP : 1 ≤ logosPerRow w) (hR : 1 ≤ rowsPerSheet h) :
    iterPaginate w h q = multiCounts w h q := by
  have hL := one_le_logosPerSheet w h hP hR
  rw [iterPaginate, multiCounts_eq w h q hL]
  exact iterLoop_eq_multiLoop w h hh hP hR q q le_rfl

/-- Witness for C10 at a 288×144 pt asset, quantity 700 (three sheets:
320 + 320 + 60 copies). -/
theorem c10_pagination_equiv_witness :
    iterPaginate 288 144 700 = multiCounts 288 144 700 :=
  c10_pagination_equiv 288 144 700 (by norm_num)
    (by rw [logosPerRow_288]; omega) (by rw [rowsPerSheet_144]; omega)

/-- C8: tier cost resolution.  `getCostForLength` returns the price of the
first tier, scanning in ascending threshold order, whose threshold is at
least the length; lengths beyond every threshold saturate at the last tier's
price; in particular a 37-inch length resolves to the 48-inch tier's
price 21.12, not the 36-inch tier's. -/
theorem c8_tier_lookup :
    (∀ l : ℚ, getCostForLength l =
        if l ≤ 12 then 5.28 else if l ≤ 24 then 10.56 else if l ≤ 36 then 15.84
        else if l ≤ 48 then 21.12 else if l ≤ 60 then 26.40
        else if l ≤ 80 then 35.20 else if l ≤ 100 then 44.00
        else if l ≤ 120 then 49.28 else if l ≤ 140 then 56.32
        else if l ≤ 160 then 61.60 else if l ≤ 180 then 68.64 else 75.68) ∧
      getCostForLength 37 = 21.12 := by
  have hall : ∀ l : ℚ, getCostForLength l =
      if l ≤ 12 then 5.28 else if l ≤ 24 then 10.56 else if l ≤ 36 then 15.84
      else if l ≤ 48 then 21.12 else if l ≤ 60 then 26.40
      else if l ≤ 80 then 35.20 else if l ≤ 100 then 44.00
      else if l ≤ 120 then 49.28 else if l ≤ 140 then 56.32
      else if l ≤ 160 then 61.60 else if l ≤ 180 then 68.64 else 75.68 := by
    intro l
    have hlast : (COST_TABLE.getLastD ⟨0, 0⟩).cost = 75.68 := rfl
    rw [getCostForLength, hlast]
    simp only [COST_TABLE, scanTiers, ite_self]
  refine ⟨hall, ?_⟩
  rw [hall 37]
  norm_num

/-! Placement characterization for the no-clip analysis. -/

theorem rowOf_mem (w : ℚ) :
    ∀ n x y p, p ∈ rowOf w n x y →
      ∃ j : ℕ, j < n ∧ p = (x + j * logoTotalWidth w, y) := by
  intro n
  induction n with
  | zero => intro x y p hp; simp [rowOf] at hp
  | succ n ih =>
      intro x y p hp
      simp only [rowOf, List.mem_cons] at hp
      rcases hp with rfl | hp
      · exact ⟨0, by omega, by simp⟩
      · obtain ⟨j, hj, rfl⟩ := ih (x + logoTotalWidth w) y p hp
        refine ⟨j + 1, by omega, ?_⟩
        simp only [Prod.mk.injEq]
        refine ⟨?_, trivial⟩
        push_cast
        ring

theorem placeLoop_mem (w h : ℚ) (P : ℕ) (hP : 1 ≤ P) :
    ∀ fuel c y p, c ≤ fuel → p ∈ placeLoop w h P fuel c y →
      ∃ i j : ℕ, j < P ∧ i < ceilDivN c P ∧
        p = (safeMarginPts + j * logoTotalWidth w, y - i * logoTotalHeight h) := by
  intro fuel
  induction fuel with
  | zero =>
      intro c y p hc hp
      have : c = 0 := by omega
      subst this
      simp [placeLoop] at hp
  | succ fuel ih =>
      intro c y p hc hp
      cases c with
      | zero => simp [placeLoop] at hp
      | succ cc =>
          simp only [placeLoop, List.mem_append] at hp
          rcases hp with hp | hp
          · obtain ⟨j, hj, rfl⟩ := rowOf_mem w _ _ _ _ hp
            refine ⟨0, j, lt_of_lt_of_le hj (min_le_right _ _),
              one_le_ceilDivN (cc + 1) P (by omega) hP, ?_⟩
            simp only [Prod.mk.injEq]
            refine ⟨trivial, ?_⟩
            push_cast
            ring
          · rcases le_or_lt (cc + 1) P with hcp | hcp
            · rw [min_eq_left hcp, Nat.sub_self] at hp
              cases fuel <;> simp [placeLoop] at hp
            · rw [min_eq_right hcp.le] at hp
              obtain ⟨i, j, hj, hi, rfl⟩ :=
                ih (cc + 1 - P) (y - logoTotalHeight h) p (by omega) hp
              refine ⟨i + 1, j, hj, ?_, ?_⟩
              · have h1 := ceilDivN_sub (cc + 1) P hP hcp
                have h2 := one_le_ceilDivN (cc + 1) P (by omega) hP
                omega
              · simp only [Prod.mk.injEq]
                refine ⟨trivial, ?_⟩
                push_cast
                ring

theorem logoTotalWidth_pos (w : ℚ) (hw : 0 < w) : 0 < logoTotalWidth w := by
  rw [logoTotalWidth, spacingPts_eq]
  linarith

theorem placement_x_bound (w : ℚ) (hw : 0 < w) (hP : 1 ≤ logosPerRow w)
    (j : ℕ) (hj : j < (logosPerRow w).toNat) :
    safeMarginPts + j * logoTotalWidth w + w ≤ sheetWidthPts - safeMarginPts := by
  have hltw := logoTotalWidth_pos w hw
  have hfl : ((logosPerRow w : ℤ) : ℚ) ≤
      (sheetWidthPts - safeMarginPts * 2 + spacingPts) / logoTotalWidth w := by
    rw [logosPerRow]
    exact Int.floor_le _
  have hmul : ((logosPerRow w : ℤ) : ℚ) * logoTotalWidth w ≤
      sheetWidthPts - safeMarginPts * 2 + spacingPts := (le_div_iff₀ hltw).mp hfl
  have hjZ : (j : ℤ) + 1 ≤ logosPerRow w := by omega
  have hjq : (j : ℚ) + 1 ≤ ((logosPerRow w : ℤ) : ℚ) := by exact_mod_cast hjZ
  have hstep : ((j : ℚ) + 1) * logoTotalWidth w ≤
      ((logosPerRow w : ℤ) : ℚ) * logoTotalWidth w :=
    mul_le_mul_of_nonneg_right hjq hltw.le
  have hexp : ((j : ℚ) + 1) * logoTotalWidth w
      = (j : ℚ) * logoTotalWidth w + w + spacingPts := by
    rw [logoTotalWidth]
    ring
  linarith

/-- C7 (amended): no-clip invariant for unrotated requests.  Every placement
on every produced sheet, drawn unrotated, has its bounding box inside
`[margin, sheetWidth - margin] × [margin, sheetHeight - margin]`.  (For
rotated requests the invariant fails; see the counterexample.) -/
theorem c7_noclip_unrotated (bw bh : ℚ) (q : ℕ) (sheets : List Sheet)
    (s : Sheet) (p : ℚ × ℚ)
    (hw : 0 < bw) (hh : 0 < bh)
    (hP : 1 ≤ logosPerRow bw) (hR : 1 ≤ rowsPerSheet bh)
    (hgen : generateSheets bw bh false q = .ok (some sheets))
    (hs : s ∈ sheets) (hp : p ∈ s.placements) :
    safeMarginPts ≤ (drawLogoBoxPdf false bw bh p.1 p.2).x0 ∧
      (drawLogoBoxPdf false bw bh p.1 p.2).x1 ≤ sheetWidthPts - safeMarginPts ∧
      safeMarginPts ≤ (drawLogoBoxPdf false bw bh p.1 p.2).y0 ∧
      (drawLogoBoxPdf false bw bh p.1 p.2).y1 ≤ s.heightPts - safeMarginPts := by
  have hbox : drawLogoBoxPdf false bw bh p.1 p.2 = ⟨p.1, p.1 + bw, p.2, p.2 + bh⟩ := rfl
  rw [generateSheets_ok bw bh false q hP hR] at hgen
  simp only [orientedW_off, orientedH_off] at hgen
  have hsheets : sheets = (multiCounts bw bh q).map (mkSheet bw bh (logosPerRow bw)) := by
    injection hgen with hgen'
    exact (Option.some.inj hgen').symm
  subst hsheets
  obtain ⟨c, hcmem, rfl⟩ := List.mem_map.mp hs
  have hL : 1 ≤ logosPerSheet bw bh := one_le_logosPerSheet _ _ hP hR
  have hP' : 1 ≤ (logosPerRow bw).toNat := by omega
  have hplace : p ∈ placeLoop bw bh (logosPerRow bw).toNat c c
      (roundedHeightPts bh (usedRows (logosPerRow bw) c) - safeMarginPts - bh) := hp
  obtain ⟨i, j, hj, hi, rfl⟩ := placeLoop_mem bw bh _ hP' c c _ _ le_rfl hplace
  have hltw := logoTotalWidth_pos bw hw
  have hlth := logoTotalHeight_pos bh hh
  have hsheight : (mkSheet bw bh (logosPerRow bw) c).heightPts =
      roundedHeightPts bh (usedRows (logosPerRow bw) c) := rfl
  have hraw := usedHeightPts_le_rounded bh (usedRows (logosPerRow bw) c)
  have huse : usedRows (logosPerRow bw) c = (ceilDivN c (logosPerRow bw).toNat : ℤ) :=
    usedRows_eq _ _ hP
  have hiu : (i : ℚ) + 1 ≤ (ceilDivN c (logosPerRow bw).toNat : ℚ) := by
    exact_mod_cast hi
  have hraw_expand : usedHeightPts bh (usedRows (logosPerRow bw) c) =
      (ceilDivN c (logosPerRow bw).toNat : ℚ) * logoTotalHeight bh +
        safeMarginPts * 2 - spacingPts := by
    rw [huse, usedHeightPts]
    push_cast
    ring
  have hjmul : (0 : ℚ) ≤ (j : ℚ) * logoTotalWidth bw :=
    mul_nonneg (by positivity) hltw.le
  have himul : (0 : ℚ) ≤ (i : ℚ) * logoTotalHeight bh :=
    mul_nonneg (by positivity) hlth.le
  have hitot : ((i : ℚ) + 1) * logoTotalHeight bh ≤
      (ceilDivN c (logosPerRow bw).toNat : ℚ) * logoTotalHeight bh :=
    mul_le_mul_of_nonneg_right hiu hlth.le
  have hexp : ((i : ℚ) + 1) * logoTotalHeight bh
      = (i : ℚ) * logoTotalHeight bh + bh + spacingPts := by
    rw [logoTotalHeight]
    ring
  rw [hbox, hsheight]
  refine ⟨?_, ?_, ?_, ?_⟩
  · simpa using by linarith
  · simpa using placement_x_bound bw hw hP j hj
  · simp only
    linarith [hraw, hraw_expand, hitot, hexp]
  · simp only
    linarith [himul]

theorem usedRows_4_1 : usedRows 4 1 = 1 := by
  rw [usedRows, Int.ceil_eq_iff]
  constructor <;> norm_num

theorem roundedHeightPts_144_1 : roundedHeightPts 144 1 = 216 := by
  rw [roundedHeightPts]
  have hc : ⌈usedHeightPts 144 1 / POINTS_PER_INCH⌉ = 3 := by
    rw [Int.ceil_eq_iff]
    constructor <;>
      norm_num [usedHeightPts, logoTotalHeight, safeMarginPts_eq, spacingPts_eq,
        POINTS_PER_INCH]
  rw [hc]
  norm_num [POINTS_PER_INCH]

theorem multiCounts_288_144_1 : multiCounts 288 144 1 = [1] := by
  rw [multiCounts_eq 288 144 1 (by rw [logosPerSheet_288_144]; omega),
    logosPerSheet_288_144]
  norm_num [ceilDivN, multiLoop]

theorem generateSheets_288_144_1 : generateSheets 288 144 false 1 =
    .ok (some [mkSheet 288 144 (logosPerRow 288) 1]) := by
  have hP : 1 ≤ logosPerRow (orientedW 288 144 false) := by
    rw [orientedW_off, logosPerRow_288]
    omega
  have hR : 1 ≤ rowsPerSheet (orientedH 288 144 false) := by
    rw [orientedH_off, rowsPerSheet_144]
    omega
  rw [generateSheets_ok 288 144 false 1 hP hR, orientedW_off, orientedH_off,
    multiCounts_288_144_1]
  rfl

theorem placements_288_144_1 :
    (mkSheet 288 144 (logosPerRow 288) 1).placements = [(9, 63)] := by
  show placeLoop 288 144 (logosPerRow 288).toNat 1 1
      (roundedHeightPts 144 (usedRows (logosPerRow 288) 1) - safeMarginPts - 144)
    = [(9, 63)]
  rw [logosPerRow_288, show ((4 : ℤ)).toNat = 4 from rfl, usedRows_4_1,
    roundedHeightPts_144_1, safeMarginPts_eq]
  norm_num [placeLoop, rowOf, safeMarginPts_eq]

/-- Witness for C7's amended theorem: the single unrotated 288×144 pt tile of
a quantity-1 request sits at (9, 63) on a 216-pt sheet, inside all four
margin bounds. -/
theorem c7_noclip_unrotated_witness :
    safeMarginPts ≤ (drawLogoBoxPdf false 288 144 9 63).x0 ∧
      (drawLogoBoxPdf false 288 144 9 63).x1 ≤ sheetWidthPts - safeMarginPts ∧
      safeMarginPts ≤ (drawLogoBoxPdf false 288 144 9 63).y0 ∧
      (drawLogoBoxPdf false 288 144 9 63).y1 ≤
        (mkSheet 288 144 (logosPerRow 288) 1).heightPts - safeMarginPts := by
  have hmem : ((9 : ℚ), (63 : ℚ)) ∈ (mkSheet 288 144 (logosPerRow 288) 1).placements := by
    rw [placements_288_144_1]
    simp
  exact c7_noclip_unrotated 288 144 1 [mkSheet 288 144 (logosPerRow 288) 1]
    (mkSheet 288 144 (logosPerRow 288) 1) (9, 63) (by norm_num) (by norm_num)
    (by rw [logosPerRow_288]; omega) (by rw [rowsPerSheet_144]; omega)
    generateSheets_288_144_1 (by simp) hmem

theorem usedRows_14_14 : usedRows 14 14 = 1 := by
  rw [usedRows, Int.ceil_eq_iff]
  constructor <;> norm_num

theorem roundedHeightPts_720_1 : roundedHeightPts 720 1 = 792 := by
  rw [roundedHeightPts]
  have hc : ⌈usedHeightPts 720 1 / POINTS_PER_INCH⌉ = 11 := by
    rw [Int.ceil_eq_iff]
    constructor <;>
      norm_num [usedHeightPts, logoTotalHeight, safeMarginPts_eq, spacingPts_eq,
        POINTS_PER_INCH]
  rw [hc]
  norm_num [POINTS_PER_INCH]

theorem logosPerSheet_72_720 : logosPerSheet 72 720 = 266 := by
  rw [logosPerSheet, logosPerRow_72, rowsPerSheet_720]
  norm_num

theorem multiCounts_72_720_14 : multiCounts 72 720 14 = [14] := by
  rw [multiCounts_eq 72 720 14 (by rw [logosPerSheet_72_720]; omega),
    logosPerSheet_72_720]
  norm_num [ceilDivN, multiLoop]

theorem generateSheets_720_72_true : generateSheets 720 72 true 14 =
    .ok (some [mkSheet 72 720 (logosPerRow 72) 14]) := by
  have hP : 1 ≤ logosPerRow (orientedW 720 72 true) := by
    rw [orientedW_on, logosPerRow_72]
    omega
  have hR : 1 ≤ rowsPerSheet (orientedH 720 72 true) := by
    rw [orientedH_on, rowsPerSheet_720]
    omega
  rw [generateSheets_ok 720 72 true 14 hP hR, orientedW_on, orientedH_on,
    multiCounts_72_720_14]
  rfl

theorem placements_72_720_14 :
    (mkSheet 72 720 (logosPerRow 72) 14).placements = rowOf 72 14 9 63 := by
  show placeLoop 72 720 (logosPerRow 72).toNat 14 14
      (roundedHeightPts 720 (usedRows (logosPerRow 72) 14) - safeMarginPts - 720)
    = rowOf 72 14 9 63
  rw [logosPerRow_72, show ((14 : ℤ)).toNat = 14 from rfl, usedRows_14_14,
    roundedHeightPts_720_1, safeMarginPts_eq]
  norm_num [placeLoop, safeMarginPts_eq]

/-- C7 counterexample: a 720×72 pt (10"×1") asset rotated, quantity 14: the
last tile of the produced sheet's single row is anchored at x = 1413, and the
rendering shift of `drawLogo` puts its rotated bounding box out to
x = 2133 pts, far beyond `sheetWidth - margin = 1575`: the rotated bounding
box does NOT lie within the margins. -/
theorem c7_noclip_counterexample :
    generateSheets 720 72 true 14 =
        .ok (some [mkSheet 72 720 (logosPerRow 72) 14]) ∧
      ((1413 : ℚ), (63 : ℚ)) ∈ (mkSheet 72 720 (logosPerRow 72) 14).placements ∧
      ¬ ((drawLogoBoxPdf true 720 72 1413 63).x1 ≤
          sheetWidthPts - safeMarginPts) := by
  refine ⟨generateSheets_720_72_true, ?_, ?_⟩
  · rw [placements_72_720_14]
    norm_num [rowOf, logoTotalWidth, spacingPts_eq, Prod.ext_iff]
  · norm_num [drawLogoBoxPdf, drawLogoPdfAnchor, orientedH_on, sheetWidthPts_eq,
      safeMarginPts_eq]

end Gangsheet
